import Mathlib

/-!
Verification of the `minions_finance` repository.

This file gives a shallow embedding of the parts of the code that the
verified properties are about:

* `minions_finance/utils/chunking.py` — document chunking
  (`chunk_by_section`, `split_into_sentences`, `create_chunks`);
* `minions_finance/utils/retrievers.py` — BM25 top-k chunk retrieval
  (`bm25_retrieve_top_k_chunks`);
* `minions.py` — the `Minions.run_multi_agent` orchestration loop.

Strings are modelled as `List Char`, Python integers as `Int` (or `Nat`
where the source value is provably non-negative), and Python `while`
loops as fuel-indexed recursive functions returning `Option` (`none`
means the loop did not finish within the given fuel, so a result of
`none` for every fuel is non-termination).
-/

/-! ## Python slicing primitives -/

/-- Python slice `l[a:b]` for int indices `a`, `b`: negative indices count
from the end, and both endpoints are clamped into `[0, len(l)]`. -/
def pySliceIdx (n i : Int) : Nat :=
  (if i < 0 then max (n + i) 0 else min i n).toNat

def pySlice (l : List Char) (a b : Int) : List Char :=
  (l.take (pySliceIdx l.length b)).drop (pySliceIdx l.length a)

/-- Python slice `l[a:]`. -/
def pySliceFrom (l : List Char) (a : Int) : List Char :=
  pySlice l a l.length

/-! ## `chunk_by_section` (chunking.py lines 7–16)

```python
def chunk_by_section(doc, max_chunk_size=3000, overlap=20):
    sections = []
    start = 0
    while start < len(doc):
        end = start + max_chunk_size
        sections.append(doc[start:end])
        start += max_chunk_size - overlap
    return sections
```
The loop is modelled with fuel; the source performs no validation of
`max_chunk_size` or `overlap`, so the model has no error outcome either:
with a non-positive stride the loop simply never terminates
(`none` for every fuel). -/

def chunkBySectionGo (doc : List Char) (maxSize ov : Int) :
    Nat → Int → Option (List (List Char))
  | 0, _ => none
  | fuel + 1, start =>
    if start < (doc.length : Int) then
      match chunkBySectionGo doc maxSize ov fuel (start + (maxSize - ov)) with
      | some rest => some (pySlice doc start (start + maxSize) :: rest)
      | none => none
    else
      some []

/-- `chunk_by_section(doc, max_chunk_size, overlap)`, run with the given
fuel for the `while` loop. -/
def chunk_by_section (doc : List Char) (maxSize ov : Int) (fuel : Nat) :
    Option (List (List Char)) :=
  chunkBySectionGo doc maxSize ov fuel 0

/-- Proof-side total version of the `chunk_by_section` loop for a
positive stride `s + 1` (i.e. `max_chunk_size - overlap = s + 1`). -/
def sectionChunksGo (doc : List Char) (maxSize s : Nat) (start : Nat) :
    List (List Char) :=
  if h : start < doc.length then
    ((doc.drop start).take maxSize) :: sectionChunksGo doc maxSize s (start + s + 1)
  else []
termination_by doc.length - start
decreasing_by omega

/-- Concatenation of a chunk list after removing the first `ov`
characters of every chunk except the first. -/
def stripConcat (ov : Nat) (cs : List (List Char)) : List Char :=
  cs.headD [] ++ ((cs.drop 1).map (fun c => c.drop ov)).flatten

/-! ## `split_into_sentences` and `create_chunks` (chunking.py lines 231–292)

```python
def split_into_sentences(text):
    sentences = re.split(PAT, text)   # PAT: whitespace run preceded by
    return [s.strip() for s in sentences if s.strip()]   # .!? and followed by A-Z
```
The split pattern matches a maximal whitespace run whose preceding
character is one of `.`/`!`/`?` and whose following character is an
ASCII capital letter; the run itself is removed.  The scanner below
implements exactly that: `pend = some ws` records that the current
piece ends in a sentence terminator and `ws` whitespace characters have
been consumed so far. -/

def pyIsSpace (c : Char) : Bool :=
  c == ' ' || c == '\t' || c == '\n' || c == '\r' || c == '\x0b' || c == '\x0c'

def sentTerm (c : Char) : Bool :=
  c == '.' || c == '!' || c == '?'

def upperAZ (c : Char) : Bool :=
  'A' ≤ c && c ≤ 'Z'

def sentSplitGo (cur : List Char) (pend : Option (List Char)) :
    List Char → List (List Char)
  | [] =>
    match pend with
    | some ws => [(ws ++ cur).reverse]
    | none => [cur.reverse]
  | c :: rest =>
    match pend with
    | some ws =>
      if pyIsSpace c then sentSplitGo cur (some (c :: ws)) rest
      else if upperAZ c then cur.reverse :: sentSplitGo [c] none rest
      else sentSplitGo (c :: (ws ++ cur)) none rest
    | none =>
      if pyIsSpace c && (match cur.head? with | some d => sentTerm d | none => false) then
        sentSplitGo cur (some [c]) rest
      else sentSplitGo (c :: cur) none rest

/-- Python `str.strip()` (whitespace on both ends). -/
def pyStrip (l : List Char) : List Char :=
  ((l.dropWhile (fun c => pyIsSpace c)).reverse.dropWhile (fun c => pyIsSpace c)).reverse

def split_into_sentences (text : List Char) : List (List Char) :=
  ((sentSplitGo [] none text).map pyStrip).filter (fun s => !s.isEmpty)

/-- `' '.join(...)`. -/
def joinSpace (xs : List (List Char)) : List Char :=
  List.intercalate [' '] xs

/-- The `while` loop of `create_chunks` (chunking.py lines 262–290),
fuel-indexed.

```python
while start < len(text):
    end = start + max_chunk_size
    if end >= len(text):
        chunk = text[start:]
        if len(chunk) >= min_chunk_size: chunks.append(chunk)
        break
    sentences = split_into_sentences(text[start:end])
    if len(sentences) > 1:
        chunk = ' '.join(sentences[:-1])
        start = start + len(chunk)
    else:
        chunk = text[start:end]
        start = end - overlap
    if len(chunk) >= min_chunk_size: chunks.append(chunk)
```
-/
def createChunksGo (text : List Char) (maxCS overlap minCS : Int) :
    Nat → Int → List (List Char) → Option (List (List Char))
  | 0, _, _ => none
  | fuel + 1, start, chunks =>
    if start < (text.length : Int) then
      if start + maxCS ≥ (text.length : Int) then
        let chunk := pySliceFrom text start
        some (if minCS ≤ (chunk.length : Int) then chunks ++ [chunk] else chunks)
      else
        let sentences := split_into_sentences (pySlice text start (start + maxCS))
        let step :=
          if 1 < sentences.length then
            let c := joinSpace sentences.dropLast
            (c, start + (c.length : Int))
          else (pySlice text start (start + maxCS), start + maxCS - overlap)
        createChunksGo text maxCS overlap minCS fuel step.2
          (if minCS ≤ (step.1.length : Int) then chunks ++ [step.1] else chunks)
    else some chunks

/-- `create_chunks(text, max_chunk_size, overlap, min_chunk_size)`,
run with the given fuel. -/
def create_chunks (text : List Char) (maxCS overlap minCS : Int) (fuel : Nat) :
    Option (List (List Char)) :=
  if (text.length : Int) ≤ maxCS then some [text]
  else createChunksGo text maxCS overlap minCS fuel 0 []

/-! ## `bm25_retrieve_top_k_chunks` (retrievers.py lines 20–50)

```python
texts = [chunk[text_key] for chunk in chunks]
tokenized_texts = [text.split() for text in texts]
bm25 = BM25Okapi(tokenized_texts)
scores = bm25.get_scores(query.split())
top_k_indices = np.argsort(scores)[-k:][::-1]
return [chunks[i] for i in top_k_indices]
```

The BM25 scoring itself lives in the external `rank_bm25` library and
produces floating-point values via `math.log`; it is abstracted here as
an oracle `ScoreFn` (scores over `ℚ`), constrained in the theorems only
by the library's guarantee that `get_scores` returns one score per
corpus document.  Two pieces of concrete library behaviour are
modelled: the `BM25Okapi` constructor computes
`avgdl = num_doc / corpus_size`, which raises `ZeroDivisionError` when
the corpus is empty; `np.argsort` sorts ascending and is modelled as a
stable sort (for the short arrays in the examples below numpy's default
sort is an insertion sort, which is stable). -/

/-- A chunk dictionary: the text under `text_key` plus its other
metadata (abstracted as a tag). -/
structure Chunk where
  text : String
  meta : Nat
deriving DecidableEq, Inhabited, Repr

/-- Whitespace tokenizer, Python `str.split()`: maximal non-space runs,
empties dropped. -/
def pySplitGo (acc : List Char) : List Char → List String
  | [] => if acc.isEmpty then [] else [String.mk acc.reverse]
  | c :: rest =>
    if pyIsSpace c then
      if acc.isEmpty then pySplitGo [] rest
      else String.mk acc.reverse :: pySplitGo [] rest
    else pySplitGo (c :: acc) rest

def pySplit (s : String) : List String :=
  pySplitGo [] s.toList

/-- Oracle for `BM25Okapi(corpus).get_scores(query_tokens)`. -/
def ScoreFn : Type :=
  List (List String) → List String → List ℚ

/-- A degenerate score oracle (every document scores 0); any corpus of
identical documents receives equal scores from the real library too. -/
def constScore : ScoreFn :=
  fun docs _ => List.replicate docs.length 0

inductive BmErr where
  | zeroDivision
deriving DecidableEq, Repr

def valAt (s : List ℚ) (i : Nat) : ℚ :=
  s.getD i 0

/-- Ascending comparison used by the `np.argsort` model: by score, ties
by original index (stability). -/
def ascLe (s : List ℚ) (i j : Nat) : Prop :=
  valAt s i < valAt s j ∨ (valAt s i = valAt s j ∧ i ≤ j)

instance (s : List ℚ) : DecidableRel (ascLe s) := fun i j => by
  unfold ascLe; infer_instance

instance (s : List ℚ) : IsTotal Nat (ascLe s) := by
  constructor
  intro a b
  rcases lt_trichotomy (valAt s a) (valAt s b) with h | h | h
  · exact Or.inl (Or.inl h)
  · rcases Nat.le_total a b with hab | hab
    · exact Or.inl (Or.inr ⟨h, hab⟩)
    · exact Or.inr (Or.inr ⟨h.symm, hab⟩)
  · exact Or.inr (Or.inl h)

instance (s : List ℚ) : IsTrans Nat (ascLe s) := by
  constructor
  intro a b c hab hbc
  rcases hab with h1 | ⟨h1, h1i⟩ <;> rcases hbc with h2 | ⟨h2, h2i⟩
  · exact Or.inl (h1.trans h2)
  · exact Or.inl (h2 ▸ h1)
  · exact Or.inl (h1 ▸ h2)
  · exact Or.inr ⟨h1.trans h2, h1i.trans h2i⟩

/-- `np.argsort(s)`: an ascending argsort of `s`.  numpy documents only
that the result is a permutation of the indices ordered by
non-decreasing value; under the default sort kind the relative order
of equal values is unspecified.  An executable model must fix one such
permutation, and this one uses the value-then-index lexicographic
order.  The theorems below rely only on the permutation and
sortedness properties, which every correct argsort satisfies; concrete
evaluations are confined to lists of at most three elements, where
numpy's default sort is an insertion sort and agrees with this model
exactly. -/
def argsort (s : List ℚ) : List Nat :=
  List.insertionSort (ascLe s) (List.range s.length)

/-- Python `arr[-k:]` for a non-negative int `k`: the whole list when
`k = 0` (since `-0 == 0`), otherwise the last `min k len` elements. -/
def pyTailSlice (k : Nat) (l : List Nat) : List Nat :=
  if k = 0 then l else l.drop (l.length - k)

/-- `bm25_retrieve_top_k_chunks(query, chunks, k)` with the scoring
oracle made explicit. -/
def bm25_retrieve_top_k_chunks (score : ScoreFn) (query : String)
    (chunks : List Chunk) (k : Nat) : Except BmErr (List Chunk) :=
  let tokenized := (chunks.map Chunk.text).map pySplit
  if tokenized.length = 0 then
    Except.error BmErr.zeroDivision
  else
    let scores := score tokenized (pySplit query)
    let topK := (pyTailSlice k (argsort scores)).reverse
    Except.ok (topK.map (fun i => chunks.getD i default))

/-! ## `Minions.run_multi_agent` (minions.py lines 206–322)

The remote client together with `_extract_json_string` and `json.loads`
is abstracted as a script of events, one per `remote_client.chat` call:
the call raises (`raise`), or it returns text that fails to parse as
JSON (`unparsable`, carrying the exception text), or it parses to a
JSON value (`parsed`).  The orchestration logic itself — the round
loop, the agent dispatch on the `agent` field, the working-context
update, every `return` statement — is translated from the source.
`conversation_log` and `agent_responses` only feed the prompt text sent
to the remote client, which the script already abstracts, so they are
not tracked.  A parsed JSON object is a field list with distinct keys
(as produced by `json.loads`). -/

inductive Json where
  | null
  | bool (b : Bool)
  | num (q : ℚ)
  | str (s : String)
  | arr (elems : List Json)
  | obj (fields : List (String × Json))

/-- Outcome of one `remote_client.chat` call followed by
`_extract_json_string` + `json.loads`. -/
inductive Event where
  | raise
  | unparsable (msg : String)
  | parsed (j : Json)

/-- Loop state of `run_multi_agent`: the index of the next chat call in
the script, `round_count`, and `current_context`. -/
structure RState where
  idx : Nat
  roundCount : Nat
  ctx : Json

/-- Instrumented outcome: one constructor per `return` site of
`run_multi_agent` (plus `exc` for a propagated exception).
`aggAnswer` carries the parsed aggregator response object. -/
inductive RResult where
  | exc
  | orchParseErr (msg : String)
  | retrieverParseErr
  | simpleParseErr
  | calcParseErr
  | aggParseErr
  | invalidAgent
  | aggAnswer (fields : List (String × Json))
  | maxRoundsExceeded

/-- The Python value `run_multi_agent` returns at each outcome
(`none` for a propagated exception). In the `aggAnswer` case this is
`agent_result.get("final_answer", "Error: No final answer provided")` —
note a present-but-null field returns Python `None`. -/
def pyReturn : RResult → Option Json
  | .exc => none
  | .orchParseErr msg => some (.str ("Error in orchestrator: " ++ msg))
  | .retrieverParseErr => some (.str "Error: Could not parse RetrieverAgent response")
  | .simpleParseErr => some (.str "Error: Could not parse SimpleFinanceAgent response")
  | .calcParseErr => some (.str "Error: Could not parse CalculatorAgent response")
  | .aggParseErr => some (.str "Error: Could not parse AggregatorAgent response")
  | .invalidAgent => some (.str "Error: Invalid agent selected")
  | .aggAnswer rf =>
    some ((rf.lookup "final_answer").getD (.str "Error: No final answer provided"))
  | .maxRoundsExceeded =>
    some (.str "Error: Maximum number of rounds exceeded without reaching a final answer")

/-- RetrieverAgent branch (minions.py lines 238–253): on a parsed object
the working context is replaced by `relevant_text` (default `""`); a
parse failure, or a parsed non-object (whose `.get` raises inside the
`try`), returns the retriever error string. -/
def handleRetriever (e : Event) (idx rc : Nat) : RState ⊕ (RResult × Nat) :=
  match e with
  | .raise => .inr (.exc, rc)
  | .unparsable _ => .inr (.retrieverParseErr, rc)
  | .parsed (.obj rf) => .inl ⟨idx + 2, rc, (rf.lookup "relevant_text").getD (.str "")⟩
  | .parsed _ => .inr (.retrieverParseErr, rc)

/-- SimpleFinanceAgent branch (lines 255–269): any parsed JSON value is
appended and the round completes; context is unchanged. -/
def handleSimple (e : Event) (idx rc : Nat) (ctx : Json) : RState ⊕ (RResult × Nat) :=
  match e with
  | .raise => .inr (.exc, rc)
  | .unparsable _ => .inr (.simpleParseErr, rc)
  | .parsed _ => .inl ⟨idx + 2, rc, ctx⟩

/-- CalculatorAgent branch (lines 271–298): requires a parsed object
with the three fields `calculation`, `result`, `explanation`; any
failure (including a parsed non-object, whose subscripting raises
inside the `try`) returns the calculator error string. -/
def handleCalc (e : Event) (idx rc : Nat) (ctx : Json) : RState ⊕ (RResult × Nat) :=
  match e with
  | .raise => .inr (.exc, rc)
  | .unparsable _ => .inr (.calcParseErr, rc)
  | .parsed (.obj rf) =>
    if (rf.lookup "calculation").isSome && (rf.lookup "result").isSome
        && (rf.lookup "explanation").isSome then
      .inl ⟨idx + 2, rc, ctx⟩
    else .inr (.calcParseErr, rc)
  | .parsed _ => .inr (.calcParseErr, rc)

/-- AggregatorAgent branch (lines 300–315): a parsed object terminates
the run, returning its `final_answer` (see `pyReturn`); a parse failure
or parsed non-object returns the aggregator error string. -/
def handleAgg (e : Event) (rc : Nat) : RResult × Nat :=
  match e with
  | .raise => (.exc, rc)
  | .unparsable _ => (.aggParseErr, rc)
  | .parsed (.obj rf) => (.aggAnswer rf, rc)
  | .parsed _ => (.aggParseErr, rc)

/-- One iteration of the `while` loop: the orchestrator chat call, the
parse of its decision, and the dispatch on
`orchestrator_decision.get("agent", "")`.  A parsed non-object decision
makes `.get` raise *outside* any `try`, propagating the exception. -/
def stepRound (events : Nat → Event) (st : RState) : RState ⊕ (RResult × Nat) :=
  match events st.idx with
  | .raise => .inr (.exc, st.roundCount + 1)
  | .unparsable msg => .inr (.orchParseErr msg, st.roundCount + 1)
  | .parsed (.obj fields) =>
    match (fields.lookup "agent").getD (.str "") with
    | .str a =>
      if a = "RetrieverAgent" then
        handleRetriever (events (st.idx + 1)) st.idx (st.roundCount + 1)
      else if a = "SimpleFinanceAgent" then
        handleSimple (events (st.idx + 1)) st.idx (st.roundCount + 1) st.ctx
      else if a = "CalculatorAgent" then
        handleCalc (events (st.idx + 1)) st.idx (st.roundCount + 1) st.ctx
      else if a = "AggregatorAgent" then
        .inr (handleAgg (events (st.idx + 1)) (st.roundCount + 1))
      else .inr (.invalidAgent, st.roundCount + 1)
    | _ => .inr (.invalidAgent, st.roundCount + 1)
  | .parsed _ => .inr (.exc, st.roundCount + 1)

/-- The `while round_count < self.max_rounds` loop, by remaining
rounds; falling out of the loop returns the max-rounds sentinel. The
second component is the final `round_count`. -/
def minionsLoop (events : Nat → Event) : Nat → RState → RResult × Nat
  | 0, st => (.maxRoundsExceeded, st.roundCount)
  | rl + 1, st =>
    match stepRound events st with
    | .inl st2 => minionsLoop events rl st2
    | .inr r => r

/-- `run_multi_agent(question, question_metadata, context)`: the
question and metadata only feed prompt text (absorbed by the event
script); `context` seeds `current_context`. -/
def run_multi_agent (maxRounds : Nat) (events : Nat → Event) (context : String) :
    RResult × Nat :=
  minionsLoop events maxRounds ⟨0, 0, .str context⟩

/-- The loop state reached after `k` completed (non-terminating)
rounds; `none` if the run terminated within the first `k` rounds. -/
def statesUpTo (events : Nat → Event) (st0 : RState) : Nat → Option RState
  | 0 => some st0
  | k + 1 =>
    match statesUpTo events st0 k with
    | some st =>
      match stepRound events st with
      | .inl st2 => some st2
      | .inr _ => none
    | none => none

/-- An event that does not raise, and whose parsed value (if any) is a
JSON object. -/
def EventBenign (e : Event) : Prop :=
  e ≠ .raise ∧ ∀ j, e = .parsed j → ∃ f, j = .obj f

/-- At state `st`, the orchestrator routes to the AggregatorAgent, the
aggregator response parses to an object, and that object has a
non-null `final_answer` field. -/
def AggRoundNonNull (events : Nat → Event) (st : RState) : Prop :=
  ∃ fields rf v,
    events st.idx = .parsed (.obj fields)
    ∧ (fields.lookup "agent").getD (.str "") = .str "AggregatorAgent"
    ∧ events (st.idx + 1) = .parsed (.obj rf)
    ∧ rf.lookup "final_answer" = some v ∧ v ≠ .null

/-- At state `st`, the round routes to one of the three non-aggregator
agents and the agent response parses well enough for the round to
complete (no parse error, no unknown agent, no aggregator return). -/
def NonTermRound (events : Nat → Event) (st : RState) : Prop :=
  ∃ fields a,
    events st.idx = .parsed (.obj fields)
    ∧ (fields.lookup "agent").getD (.str "") = .str a
    ∧ ((a = "RetrieverAgent" ∧ ∃ rf, events (st.idx + 1) = .parsed (.obj rf))
      ∨ (a = "SimpleFinanceAgent" ∧ ∃ j, events (st.idx + 1) = .parsed j)
      ∨ (a = "CalculatorAgent" ∧ ∃ rf, events (st.idx + 1) = .parsed (.obj rf)
          ∧ ((rf.lookup "calculation").isSome && (rf.lookup "result").isSome
              && (rf.lookup "explanation").isSome) = true))

/-! Concrete event scripts used by witnesses and counterexamples. -/

/-- A remote client whose every call raises. -/
def scriptRaise : Nat → Event := fun _ => .raise

/-- Round 1 routes to the AggregatorAgent, whose response parses to the
empty JSON object (no `final_answer` field at all). -/
def scriptAggEmpty : Nat → Event := fun i =>
  if i = 0 then .parsed (.obj [("agent", .str "AggregatorAgent")])
  else .parsed (.obj [])

/-- Round 1 routes to the AggregatorAgent, whose response carries a
non-null `final_answer`. -/
def scriptAggAnswer : Nat → Event := fun i =>
  if i = 0 then .parsed (.obj [("agent", .str "AggregatorAgent")])
  else .parsed (.obj [("final_answer", .str "42")])

/-- Every round routes to the SimpleFinanceAgent, which answers with an
empty JSON object: no round ever terminates the loop. -/
def scriptSimple : Nat → Event := fun i =>
  if i % 2 = 0 then .parsed (.obj [("agent", .str "SimpleFinanceAgent")])
  else .parsed (.obj [])

/-- Round 1 routes to the RetrieverAgent, which returns a
`relevant_text` field. -/
def scriptRetrieve : Nat → Event := fun i =>
  if i = 0 then .parsed (.obj [("agent", .str "RetrieverAgent")])
  else if i = 1 then .parsed (.obj [("relevant_text", .str "narrowed")])
  else .raise

lemma pySlice_nat (l : List Char) (start m : Nat) (h : start < l.length) :
    pySlice l (start : Int) ((start : Int) + (m : Int)) = (l.drop start).take m := by
  unfold pySlice pySliceIdx
  have ha : ¬((start : Int) < 0) := by omega
  have hb : ¬((start : Int) + (m : Int) < 0) := by omega
  rw [if_neg ha, if_neg hb]
  have h1 : (min (start : Int) (l.length : Int)).toNat = start := by omega
  have h2 : (min ((start : Int) + (m : Int)) (l.length : Int)).toNat
      = min (start + m) l.length := by omega
  rw [h1, h2]
  rcases le_total (start + m) l.length with hle | hle
  · rw [min_eq_left hle, List.drop_take]
    congr 1
    omega
  · rw [min_eq_right hle, List.take_length]
    have hlen : (l.drop start).length ≤ m := by
      rw [List.length_drop]; omega
    rw [List.take_of_length_le hlen]

/-- The fuel-indexed loop terminates and agrees with the total version
whenever the stride `maxSize - ov` is positive and the fuel covers the
remaining document. -/
lemma chunkBySectionGo_eq_sectionChunksGo (doc : List Char) (maxSize ov : Nat)
    (hov : ov < maxSize) :
    ∀ fuel start : Nat, doc.length - start < fuel →
      chunkBySectionGo doc (maxSize : Int) (ov : Int) fuel (start : Int)
        = some (sectionChunksGo doc maxSize (maxSize - ov - 1) start) := by
  intro fuel
  induction fuel with
  | zero => intro start hf; omega
  | succ fuel ih =>
    intro start hf
    rw [chunkBySectionGo, sectionChunksGo]
    by_cases h : start < doc.length
    · have hcast : (start : Int) < (doc.length : Int) := by omega
      rw [if_pos hcast, dif_pos h]
      have hstep : (start : Int) + ((maxSize : Int) - (ov : Int))
          = ((start + (maxSize - ov - 1) + 1 : Nat) : Int) := by
        push_cast; omega
      have hrec := ih (start + (maxSize - ov - 1) + 1) (by omega)
      rw [hstep, hrec]
      have hslice : (start : Int) + (maxSize : Int)
          = ((start : Int) + ((maxSize : Nat) : Int)) := rfl
      rw [pySlice_nat doc start maxSize h]
    · have hcast : ¬((start : Int) < (doc.length : Int)) := by omega
      rw [if_neg hcast, dif_neg h]

/-- Stripping the overlap off every chunk (including the first) of the
total loop's output and concatenating yields the document from position
`start + ov` on. -/
lemma sectionChunksGo_strip (doc : List Char) (maxSize s ov : Nat)
    (hm : maxSize = ov + s + 1) :
    ∀ start : Nat,
      ((sectionChunksGo doc maxSize s start).map (fun c => c.drop ov)).flatten
        = doc.drop (start + ov) := by
  suffices H : ∀ k start : Nat, doc.length - start ≤ k →
      ((sectionChunksGo doc maxSize s start).map (fun c => c.drop ov)).flatten
        = doc.drop (start + ov) by
    intro start
    exact H (doc.length - start) start le_rfl
  intro k
  induction k with
  | zero =>
    intro start hk
    rw [sectionChunksGo, dif_neg (by omega)]
    simp only [List.map_nil, List.flatten_nil]
    rw [eq_comm, List.drop_eq_nil_iff]
    omega
  | succ k ih =>
    intro start hk
    rw [sectionChunksGo]
    by_cases h : start < doc.length
    · rw [dif_pos h]
      have hrec := ih (start + s + 1) (by omega)
      simp only [List.map_cons, List.flatten_cons, hrec]
      have hchunk : ((doc.drop start).take maxSize).drop ov
          = (doc.drop (start + ov)).take (s + 1) := by
        rw [List.drop_take, ← List.drop_drop]
        congr 1
        omega
      rw [hchunk]
      have hdrop : doc.drop (start + s + 1 + ov)
          = (doc.drop (start + ov)).drop (s + 1) := by
        rw [List.drop_drop]
        congr 1
        omega
      rw [hdrop, List.take_append_drop]
    · rw [dif_neg h]
      simp only [List.map_nil, List.flatten_nil]
      rw [eq_comm, List.drop_eq_nil_iff]
      omega

/-- Removing the first `ov` characters of every chunk except the first and
concatenating reconstructs the document (total-loop version). -/
lemma sectionChunksGo_reconstruct (doc : List Char) (maxSize ov : Nat)
    (hov : ov < maxSize) :
    stripConcat ov (sectionChunksGo doc maxSize (maxSize - ov - 1) 0) = doc := by
  set s := maxSize - ov - 1 with hs
  have hm : maxSize = ov + s + 1 := by omega
  rw [sectionChunksGo]
  by_cases h : 0 < doc.length
  · rw [dif_pos h]
    unfold stripConcat
    simp only [List.headD_cons, List.drop_succ_cons, List.drop_zero]
    have hrec := sectionChunksGo_strip doc maxSize s ov hm (0 + s + 1)
    rw [hrec]
    have : 0 + s + 1 + ov = maxSize := by omega
    rw [this, List.take_append_drop]
  · rw [dif_neg h]
    have hnil : doc = [] := by
      cases doc with
      | nil => rfl
      | cons a l => simp at h
    subst hnil
    rfl

/-! ## Orchestrator loop lemmas -/

lemma stepRound_retriever (events : Nat → Event) (st : RState)
    (fields : List (String × Json))
    (h1 : events st.idx = .parsed (.obj fields))
    (h2 : (fields.lookup "agent").getD (.str "") = .str "RetrieverAgent") :
    stepRound events st
      = handleRetriever (events (st.idx + 1)) st.idx (st.roundCount + 1) := by
  simp only [stepRound, h1, h2]
  rfl

lemma stepRound_simple (events : Nat → Event) (st : RState)
    (fields : List (String × Json))
    (h1 : events st.idx = .parsed (.obj fields))
    (h2 : (fields.lookup "agent").getD (.str "") = .str "SimpleFinanceAgent") :
    stepRound events st
      = handleSimple (events (st.idx + 1)) st.idx (st.roundCount + 1) st.ctx := by
  simp only [stepRound, h1, h2]
  rfl

lemma stepRound_calc (events : Nat → Event) (st : RState)
    (fields : List (String × Json))
    (h1 : events st.idx = .parsed (.obj fields))
    (h2 : (fields.lookup "agent").getD (.str "") = .str "CalculatorAgent") :
    stepRound events st
      = handleCalc (events (st.idx + 1)) st.idx (st.roundCount + 1) st.ctx := by
  simp only [stepRound, h1, h2]
  rfl

lemma stepRound_agg (events : Nat → Event) (st : RState)
    (fields : List (String × Json))
    (h1 : events st.idx = .parsed (.obj fields))
    (h2 : (fields.lookup "agent").getD (.str "") = .str "AggregatorAgent") :
    stepRound events st
      = .inr (handleAgg (events (st.idx + 1)) (st.roundCount + 1)) := by
  simp only [stepRound, h1, h2]
  rfl

lemma handleRetriever_ne_agg (e : Event) (idx rc : Nat)
    (rf : List (String × Json)) (rc2 : Nat) :
    handleRetriever e idx rc ≠ .inr (.aggAnswer rf, rc2) := by
  cases e with
  | raise => simp [handleRetriever]
  | unparsable msg => simp [handleRetriever]
  | parsed j => cases j <;> simp [handleRetriever]

lemma handleSimple_ne_agg (e : Event) (idx rc : Nat) (ctx : Json)
    (rf : List (String × Json)) (rc2 : Nat) :
    handleSimple e idx rc ctx ≠ .inr (.aggAnswer rf, rc2) := by
  cases e <;> simp [handleSimple]

lemma handleCalc_ne_agg (e : Event) (idx rc : Nat) (ctx : Json)
    (rf : List (String × Json)) (rc2 : Nat) :
    handleCalc e idx rc ctx ≠ .inr (.aggAnswer rf, rc2) := by
  cases e with
  | raise => simp [handleCalc]
  | unparsable msg => simp [handleCalc]
  | parsed j =>
    cases j <;> simp [handleCalc]
    split <;> simp

lemma handleAgg_eq_agg (e : Event) (rc : Nat) (rf : List (String × Json)) (rc2 : Nat)
    (h : handleAgg e rc = (.aggAnswer rf, rc2)) :
    e = .parsed (.obj rf) ∧ rc2 = rc := by
  cases e with
  | raise => simp [handleAgg] at h
  | unparsable msg => simp [handleAgg] at h
  | parsed j =>
    cases j <;> simp [handleAgg] at h
    obtain ⟨h1, h2⟩ := h
    exact ⟨by rw [h1], h2.symm⟩

lemma stepRound_eq_aggAnswer (events : Nat → Event) (st : RState)
    (rf : List (String × Json)) (rc : Nat)
    (h : stepRound events st = .inr (.aggAnswer rf, rc)) :
    ∃ fields, events st.idx = .parsed (.obj fields)
      ∧ (fields.lookup "agent").getD (.str "") = .str "AggregatorAgent"
      ∧ events (st.idx + 1) = .parsed (.obj rf)
      ∧ rc = st.roundCount + 1 := by
  rcases hev : events st.idx with _ | msg | j
  · simp [stepRound, hev] at h
  · simp [stepRound, hev] at h
  · cases j with
    | obj fields =>
      simp only [stepRound, hev] at h
      rcases hx : (fields.lookup "agent").getD (.str "") with _ | b | q | a | el | fl <;>
        simp only [hx] at h
      case str =>
        split_ifs at h with hr hs hc ha
        · exact absurd h (handleRetriever_ne_agg _ _ _ _ _)
        · exact absurd h (handleSimple_ne_agg _ _ _ _ _ _)
        · exact absurd h (handleCalc_ne_agg _ _ _ _ _ _)
        · have h5 : handleAgg (events (st.idx + 1)) (st.roundCount + 1)
              = (.aggAnswer rf, rc) := by
            injection h
          obtain ⟨h6, h7⟩ := handleAgg_eq_agg _ _ _ _ h5
          exact ⟨fields, rfl, by rw [hx, ha], h6, h7⟩
        · simp at h
      all_goals simp at h
    | null => simp [stepRound, hev] at h
    | bool b => simp [stepRound, hev] at h
    | num q => simp [stepRound, hev] at h
    | str s => simp [stepRound, hev] at h
    | arr el => simp [stepRound, hev] at h


lemma handleRetriever_inl (e : Event) (idx rc : Nat) (st2 : RState)
    (h : handleRetriever e idx rc = .inl st2) :
    st2.idx = idx + 2 ∧ st2.roundCount = rc := by
  cases e with
  | raise => simp [handleRetriever] at h
  | unparsable msg => simp [handleRetriever] at h
  | parsed j =>
    cases j <;> simp [handleRetriever] at h
    rw [← h]
    exact ⟨rfl, rfl⟩

lemma handleSimple_inl (e : Event) (idx rc : Nat) (ctx : Json) (st2 : RState)
    (h : handleSimple e idx rc ctx = .inl st2) :
    st2.idx = idx + 2 ∧ st2.roundCount = rc := by
  cases e <;> simp [handleSimple] at h
  rw [← h]
  exact ⟨rfl, rfl⟩

lemma handleCalc_inl (e : Event) (idx rc : Nat) (ctx : Json) (st2 : RState)
    (h : handleCalc e idx rc ctx = .inl st2) :
    st2.idx = idx + 2 ∧ st2.roundCount = rc := by
  cases e with
  | raise => simp [handleCalc] at h
  | unparsable msg => simp [handleCalc] at h
  | parsed j =>
    cases j with
    | obj rf =>
      simp only [handleCalc] at h
      split_ifs at h with hc
      injection h with h
      exact ⟨by rw [← h], by rw [← h]⟩
    | null => simp [handleCalc] at h
    | bool b => simp [handleCalc] at h
    | num q => simp [handleCalc] at h
    | str s => simp [handleCalc] at h
    | arr el => simp [handleCalc] at h

lemma stepRound_inl (events : Nat → Event) (st st2 : RState)
    (h : stepRound events st = .inl st2) :
    st2.idx = st.idx + 2 ∧ st2.roundCount = st.roundCount + 1 := by
  rcases hev : events st.idx with _ | msg | j
  · simp [stepRound, hev] at h
  · simp [stepRound, hev] at h
  · cases j with
    | obj fields =>
      simp only [stepRound, hev] at h
      rcases hx : (fields.lookup "agent").getD (.str "") with _ | b | q | a | el | fl <;>
        simp only [hx] at h
      case str =>
        split_ifs at h with hr hs hc ha
        · exact handleRetriever_inl _ _ _ _ h
        · exact handleSimple_inl _ _ _ _ _ h
        · exact handleCalc_inl _ _ _ _ _ h
      all_goals simp at h
    | null => simp [stepRound, hev] at h
    | bool b => simp [stepRound, hev] at h
    | num q => simp [stepRound, hev] at h
    | str s => simp [stepRound, hev] at h
    | arr el => simp [stepRound, hev] at h

lemma handleRetriever_ne_exc (e : Event) (idx rc : Nat) (r : RResult) (rc2 : Nat)
    (he : e ≠ .raise) (h : handleRetriever e idx rc = .inr (r, rc2)) :
    r ≠ .exc := by
  cases e with
  | raise => exact absurd rfl he
  | unparsable msg =>
    simp [handleRetriever] at h
    obtain ⟨h1, h2⟩ := h
    subst h1
    simp
  | parsed j =>
    cases j with
    | obj rf => simp [handleRetriever] at h
    | null => simp [handleRetriever] at h; obtain ⟨h1, h2⟩ := h; subst h1; simp
    | bool b => simp [handleRetriever] at h; obtain ⟨h1, h2⟩ := h; subst h1; simp
    | num q => simp [handleRetriever] at h; obtain ⟨h1, h2⟩ := h; subst h1; simp
    | str s => simp [handleRetriever] at h; obtain ⟨h1, h2⟩ := h; subst h1; simp
    | arr el => simp [handleRetriever] at h; obtain ⟨h1, h2⟩ := h; subst h1; simp

lemma handleSimple_ne_exc (e : Event) (idx rc : Nat) (ctx : Json) (r : RResult) (rc2 : Nat)
    (he : e ≠ .raise) (h : handleSimple e idx rc ctx = .inr (r, rc2)) :
    r ≠ .exc := by
  cases e with
  | raise => exact absurd rfl he
  | unparsable msg =>
    simp [handleSimple] at h
    obtain ⟨h1, h2⟩ := h
    subst h1
    simp
  | parsed j => simp [handleSimple] at h

lemma handleCalc_ne_exc (e : Event) (idx rc : Nat) (ctx : Json) (r : RResult) (rc2 : Nat)
    (he : e ≠ .raise) (h : handleCalc e idx rc ctx = .inr (r, rc2)) :
    r ≠ .exc := by
  cases e with
  | raise => exact absurd rfl he
  | unparsable msg =>
    simp [handleCalc] at h
    obtain ⟨h1, h2⟩ := h
    subst h1
    simp
  | parsed j =>
    cases j with
    | obj rf =>
      simp only [handleCalc] at h
      split_ifs at h with hc
      injection h with h
      injection h with h1 h2
      subst h1
      simp
    | null => simp [handleCalc] at h; obtain ⟨h1, h2⟩ := h; subst h1; simp
    | bool b => simp [handleCalc] at h; obtain ⟨h1, h2⟩ := h; subst h1; simp
    | num q => simp [handleCalc] at h; obtain ⟨h1, h2⟩ := h; subst h1; simp
    | str s => simp [handleCalc] at h; obtain ⟨h1, h2⟩ := h; subst h1; simp
    | arr el => simp [handleCalc] at h; obtain ⟨h1, h2⟩ := h; subst h1; simp

lemma handleAgg_ne_exc (e : Event) (rc : Nat) (he : e ≠ .raise) :
    (handleAgg e rc).1 ≠ .exc := by
  cases e with
  | raise => exact absurd rfl he
  | unparsable msg => simp [handleAgg]
  | parsed j => cases j <;> simp [handleAgg]

lemma stepRound_ne_exc (events : Nat → Event) (st : RState) (r : RResult) (rc : Nat)
    (hb1 : EventBenign (events st.idx)) (hb2 : EventBenign (events (st.idx + 1)))
    (h : stepRound events st = .inr (r, rc)) :
    r ≠ .exc := by
  rcases hev : events st.idx with _ | msg | j
  · exact absurd (by rw [hev]) hb1.1
  · simp [stepRound, hev] at h
    obtain ⟨h1, h2⟩ := h
    subst h1
    simp
  · obtain ⟨f, hf⟩ := hb1.2 j (by rw [hev])
    subst hf
    simp only [stepRound, hev] at h
    rcases hx : (f.lookup "agent").getD (.str "") with _ | b | q | a | el | fl <;>
      simp only [hx] at h
    case str =>
      split_ifs at h with hr hs hc ha
      · exact handleRetriever_ne_exc _ _ _ _ _ hb2.1 h
      · exact handleSimple_ne_exc _ _ _ _ _ _ hb2.1 h
      · exact handleCalc_ne_exc _ _ _ _ _ _ hb2.1 h
      · have h2 : handleAgg (events (st.idx + 1)) (st.roundCount + 1) = (r, rc) := by
          injection h
        have h5 : (handleAgg (events (st.idx + 1)) (st.roundCount + 1)).1 = r := by
          rw [h2]
        rw [← h5]
        exact handleAgg_ne_exc _ _ hb2.1
      · simp at h
        obtain ⟨h1, h2⟩ := h
        subst h1
        simp
    all_goals (simp at h; obtain ⟨h1, h2⟩ := h; subst h1; simp)

lemma statesUpTo_succ_left (events : Nat → Event) (st0 st1 : RState)
    (h : stepRound events st0 = .inl st1) :
    ∀ k, statesUpTo events st0 (k + 1) = statesUpTo events st1 k := by
  intro k
  induction k with
  | zero => simp [statesUpTo, h]
  | succ k ih =>
    rw [statesUpTo, ih, statesUpTo]

lemma minionsLoop_shift (events : Nat → Event) :
    ∀ (k : Nat) (st0 st : RState), statesUpTo events st0 k = some st →
      ∀ rl, minionsLoop events (k + rl) st0 = minionsLoop events rl st := by
  intro k
  induction k with
  | zero =>
    intro st0 st h rl
    simp [statesUpTo] at h
    rw [Nat.zero_add, h]
  | succ k ih =>
    intro st0 st h rl
    rw [statesUpTo] at h
    rcases h2 : statesUpTo events st0 k with _ | st3
    · rw [h2] at h
      cases h
    · rw [h2] at h
      rcases h3 : stepRound events st3 with st2 | r
      · simp only [h3] at h
        injection h with h
        subst h
        have e1 : k + 1 + rl = k + (rl + 1) := by omega
        rw [e1, ih st0 st3 h2 (rl + 1)]
        simp only [minionsLoop, h3]
      · simp only [h3] at h
        simp at h

lemma minionsLoop_aggAnswer (events : Nat → Event) :
    ∀ (rl : Nat) (st0 : RState) (rf : List (String × Json)) (rc : Nat),
      minionsLoop events rl st0 = (.aggAnswer rf, rc) →
      ∃ k, k < rl ∧ ∃ st, statesUpTo events st0 k = some st
        ∧ stepRound events st = .inr (.aggAnswer rf, rc) := by
  intro rl
  induction rl with
  | zero =>
    intro st0 rf rc h
    simp [minionsLoop] at h
  | succ rl ih =>
    intro st0 rf rc h
    rw [minionsLoop] at h
    rcases h3 : stepRound events st0 with st2 | r
    · rw [h3] at h
      obtain ⟨k, hk, st, hst, hstep⟩ := ih st2 rf rc h
      refine ⟨k + 1, by omega, st, ?_, hstep⟩
      rw [statesUpTo_succ_left events st0 st2 h3 k]
      exact hst
    · rw [h3] at h
      change r = (RResult.aggAnswer rf, rc) at h
      exact ⟨0, by omega, st0, rfl, by rw [h3, h]⟩

lemma aggRoundNonNull_step (events : Nat → Event) (st : RState)
    (h : AggRoundNonNull events st) :
    ∃ rf v, stepRound events st = .inr (.aggAnswer rf, st.roundCount + 1)
      ∧ rf.lookup "final_answer" = some v ∧ v ≠ .null := by
  obtain ⟨fields, rf, v, h1, h2, h3, h4, h5⟩ := h
  refine ⟨rf, v, ?_, h4, h5⟩
  rw [stepRound_agg events st fields h1 h2, h3]
  rfl

lemma nonTermRound_step (events : Nat → Event) (st : RState)
    (h : NonTermRound events st) :
    ∃ ctx2, stepRound events st = .inl ⟨st.idx + 2, st.roundCount + 1, ctx2⟩ := by
  obtain ⟨fields, a, h1, h2, hcase⟩ := h
  rcases hcase with ⟨ha, rf, hrf⟩ | ⟨ha, j, hj⟩ | ⟨ha, rf, hrf, hflds⟩
  · subst ha
    rw [stepRound_retriever events st fields h1 h2, hrf]
    exact ⟨_, rfl⟩
  · subst ha
    rw [stepRound_simple events st fields h1 h2, hj]
    exact ⟨st.ctx, rfl⟩
  · subst ha
    refine ⟨st.ctx, ?_⟩
    rw [stepRound_calc events st fields h1 h2, hrf]
    simp [handleCalc, hflds]

/-! ## BM25 selection lemmas -/

lemma argsort_perm (s : List ℚ) : (argsort s).Perm (List.range s.length) :=
  List.perm_insertionSort _ _

lemma argsort_length (s : List ℚ) : (argsort s).length = s.length := by
  rw [(argsort_perm s).length_eq, List.length_range]

lemma argsort_sorted (s : List ℚ) : List.Pairwise (ascLe s) (argsort s) :=
  List.sorted_insertionSort _ _

lemma argsort_nodup (s : List ℚ) : (argsort s).Nodup :=
  ((argsort_perm s).nodup_iff).mpr (List.nodup_range _)

lemma mem_argsort (s : List ℚ) (i : Nat) : i ∈ argsort s ↔ i < s.length := by
  rw [(argsort_perm s).mem_iff, List.mem_range]

lemma bm25_eq_of_ne_nil (score : ScoreFn) (q : String) (chunks : List Chunk) (k : Nat)
    (h : chunks ≠ []) :
    bm25_retrieve_top_k_chunks score q chunks k
      = .ok (((pyTailSlice k
            (argsort (score ((chunks.map Chunk.text).map pySplit) (pySplit q)))).reverse).map
          (fun i => chunks.getD i default)) := by
  have hne : ¬(((chunks.map Chunk.text).map pySplit).length = 0) := by
    simp only [List.length_map]
    intro hz
    exact h (List.length_eq_zero.mp hz)
  simp only [bm25_retrieve_top_k_chunks]
  rw [if_neg hne]

lemma chunk_by_section_eq (doc : List Char) (maxSize ov : Nat) (hov : ov < maxSize) :
    chunk_by_section doc (maxSize : Int) (ov : Int) (doc.length + 1)
      = some (sectionChunksGo doc maxSize (maxSize - ov - 1) 0) := by
  unfold chunk_by_section
  have h := chunkBySectionGo_eq_sectionChunksGo doc maxSize ov hov (doc.length + 1) 0 (by omega)
  rw [Nat.cast_zero] at h
  exact h

/-! ## Claims about the chunk splitter -/

/-- C4: for `0 ≤ overlap < max_chunk_size`, concatenating the chunks of
`chunk_by_section` after removing the first `overlap` characters of
every chunk except the first reconstructs the document exactly (the
loop also terminates within `len(doc) + 1` iterations). -/
theorem C4_reconstruct (doc : List Char) (maxSize ov : Nat) (hov : ov < maxSize) :
    (chunk_by_section doc (maxSize : Int) (ov : Int) (doc.length + 1)).isSome = true
      ∧ stripConcat ov ((chunk_by_section doc (maxSize : Int) (ov : Int) (doc.length + 1)).getD [])
        = doc := by
  rw [chunk_by_section_eq doc maxSize ov hov]
  exact ⟨rfl, by rw [Option.getD_some]; exact sectionChunksGo_reconstruct doc maxSize ov hov⟩

theorem C4_witness :
    (1 : Nat) < 3
      ∧ ((chunk_by_section "hello".toList ((3 : Nat) : Int) ((1 : Nat) : Int)
            ("hello".toList.length + 1)).isSome = true
        ∧ stripConcat 1 ((chunk_by_section "hello".toList ((3 : Nat) : Int) ((1 : Nat) : Int)
            ("hello".toList.length + 1)).getD []) = "hello".toList) :=
  ⟨by decide, C4_reconstruct "hello".toList 3 1 (by decide)⟩

/-- C8: counterexample. With `max_chunk_size = 0`, `overlap = 0` on the
non-empty document `"a"`, `chunk_by_section` raises no configuration
error: the loop makes no progress and is still running after 60 (or any
other) iterations. -/
theorem C8_counterexample : chunk_by_section ['a'] 0 0 60 = none := rfl

/-- C8 (amended): `chunk_by_section` performs no parameter validation
and raises no error: with a non-positive stride (e.g. both sizes zero)
on a non-empty document the loop never terminates, while for valid
parameters (`overlap < max_chunk_size`) it always terminates normally. -/
theorem C8_no_validation :
    (∀ fuel, chunk_by_section ['a'] 0 0 fuel = none)
      ∧ ∀ (doc : List Char) (maxSize ov : Nat), ov < maxSize →
          (chunk_by_section doc (maxSize : Int) (ov : Int) (doc.length + 1)).isSome = true := by
  constructor
  · intro fuel
    unfold chunk_by_section
    induction fuel with
    | zero => rfl
    | succ fuel ih =>
      have ih2 : chunkBySectionGo ['a'] 0 0 fuel (0 + (0 - 0)) = none := by
        have e : (0 : Int) + ((0 : Int) - (0 : Int)) = (0 : Int) := by ring
        rw [e]
        exact ih
      rw [chunkBySectionGo,
        if_pos (by decide : (0 : Int) < ((['a'] : List Char).length : Int)), ih2]
  · intro doc maxSize ov hov
    rw [chunk_by_section_eq doc maxSize ov hov]
    rfl

theorem C8_witness :
    chunk_by_section ['a'] 0 0 7 = none
      ∧ (chunk_by_section ['h', 'i'] ((2 : Nat) : Int) ((1 : Nat) : Int)
          (['h', 'i'].length + 1)).isSome = true :=
  ⟨C8_no_validation.1 7, C8_no_validation.2 ['h', 'i'] 2 1 (by decide)⟩

/-- C9: counterexample. `create_chunks` silently drops content: with
`max_chunk_size = 5`, `overlap = 0`, `min_chunk_size = 3` on
`"aaaaazz"`, the final two-character tail `"zz"` is shorter than
`min_chunk_size` and is discarded, so the character `z` appears in no
produced chunk. -/
theorem C9_counterexample :
    create_chunks "aaaaazz".toList 5 0 3 10 = some ["aaaaa".toList]
      ∧ 'z' ∈ "aaaaazz".toList
      ∧ ∀ ch ∈ ["aaaaa".toList], 'z' ∉ ch :=
  ⟨rfl, by decide, by decide⟩

/-- C9 (amended): full character coverage holds for the fixed-size
section policy (`chunk_by_section` with `overlap < max_chunk_size`):
every character of the document appears in some produced chunk.  It
fails for `create_chunks`, which discards chunks shorter than
`min_chunk_size` (see the counterexample). -/
theorem C9_section_coverage (doc : List Char) (maxSize ov : Nat) (hov : ov < maxSize) :
    ∀ c ∈ doc,
      ∃ chunk ∈ (chunk_by_section doc (maxSize : Int) (ov : Int) (doc.length + 1)).getD [],
        c ∈ chunk := by
  intro c hc
  rw [chunk_by_section_eq doc maxSize ov hov, Option.getD_some]
  have hrec := sectionChunksGo_reconstruct doc maxSize ov hov
  rw [← hrec] at hc
  unfold stripConcat at hc
  rcases List.mem_append.mp hc with h1 | h2
  · rcases hcs : sectionChunksGo doc maxSize (maxSize - ov - 1) 0 with _ | ⟨x, t⟩
    · rw [hcs] at h1
      simp at h1
    · rw [hcs] at h1
      exact ⟨x, List.mem_cons_self x t, h1⟩
  · obtain ⟨piece, hp, hcp⟩ := List.mem_flatten.mp h2
    obtain ⟨c2, hc2, hc2eq⟩ := List.mem_map.mp hp
    rw [← hc2eq] at hcp
    exact ⟨c2, List.mem_of_mem_drop hc2, List.mem_of_mem_drop hcp⟩

theorem C9_witness :
    (1 : Nat) < 3 ∧ 'o' ∈ "hello".toList
      ∧ ∃ chunk ∈ (chunk_by_section "hello".toList ((3 : Nat) : Int) ((1 : Nat) : Int)
          ("hello".toList.length + 1)).getD [], 'o' ∈ chunk :=
  ⟨by decide, by decide, C9_section_coverage "hello".toList 3 1 (by decide) 'o' (by decide)⟩

/-! ## Claims about the BM25 ranker -/

/-- C5: counterexample. With `k = 0` the slice `scores[-0:]` is the
whole score array, so the ranker returns the chunk of a one-element
candidate list instead of the empty sequence. -/
theorem C5_counterexample :
    bm25_retrieve_top_k_chunks constScore "a" [⟨"a", 0⟩] 0 = .ok [⟨"a", 0⟩]
      ∧ ([⟨"a", 0⟩] : List Chunk) ≠ ([] : List Chunk) :=
  ⟨rfl, by decide⟩

/-- C5 (amended): with `k = 0` and a non-empty candidate list the
ranker returns all candidate chunks (one per candidate), not the empty
sequence, because `scores[-0:]` is the whole array. -/
theorem C5_k_zero_returns_all (score : ScoreFn) (q : String) (chunks : List Chunk)
    (h : chunks ≠ [])
    (hlen : (score ((chunks.map Chunk.text).map pySplit) (pySplit q)).length
      = chunks.length) :
    ∃ r, bm25_retrieve_top_k_chunks score q chunks 0 = .ok r
      ∧ r.length = chunks.length := by
  refine ⟨_, bm25_eq_of_ne_nil score q chunks 0 h, ?_⟩
  simp only [List.length_map, List.length_reverse, pyTailSlice]
  rw [if_true, argsort_length, hlen]

theorem C5_witness :
    ([⟨"a", 0⟩] : List Chunk) ≠ []
      ∧ ∃ r, bm25_retrieve_top_k_chunks constScore "a" [⟨"a", 0⟩] 0 = .ok r
        ∧ r.length = ([⟨"a", 0⟩] : List Chunk).length :=
  ⟨by decide, C5_k_zero_returns_all constScore "a" [⟨"a", 0⟩] (by decide) rfl⟩

/-- C6: counterexample. On an empty candidate list the ranker does not
return an empty result: the `BM25Okapi` constructor divides by the
corpus size and raises `ZeroDivisionError`. -/
theorem C6_counterexample :
    bm25_retrieve_top_k_chunks constScore "query" [] 3 = .error .zeroDivision
      ∧ (Except.error BmErr.zeroDivision
          ≠ (Except.ok ([] : List Chunk) : Except BmErr (List Chunk))) :=
  ⟨rfl, fun hh => nomatch hh⟩

/-- C6 (amended): for every query and `k`, the ranker on an empty
candidate list raises `ZeroDivisionError` from the BM25 index
construction (`avgdl = num_doc / corpus_size` with `corpus_size = 0`);
it never returns a value for empty input. -/
theorem C6_empty_raises (score : ScoreFn) (q : String) (k : Nat) :
    bm25_retrieve_top_k_chunks score q [] k = .error .zeroDivision := rfl

/-- C7: counterexample. Two distinct chunks with identical text receive
identical BM25 scores, and the final `[::-1]` reversal makes them come
out in *reversed* input order, not original input order. -/
theorem C7_counterexample :
    valAt (constScore ((([⟨"a", 0⟩, ⟨"a", 1⟩] : List Chunk).map Chunk.text).map pySplit)
        (pySplit "a")) 0
      = valAt (constScore ((([⟨"a", 0⟩, ⟨"a", 1⟩] : List Chunk).map Chunk.text).map pySplit)
        (pySplit "a")) 1
      ∧ bm25_retrieve_top_k_chunks constScore "a" [⟨"a", 0⟩, ⟨"a", 1⟩] 2
        = .ok [⟨"a", 1⟩, ⟨"a", 0⟩]
      ∧ ([⟨"a", 1⟩, ⟨"a", 0⟩] : List Chunk) ≠ [⟨"a", 0⟩, ⟨"a", 1⟩] :=
  ⟨rfl, rfl, by decide⟩

/-- Selection of the top `k` and final reversal, proved from the only
properties numpy documents for `argsort`: the index list `a` is *some*
permutation of the indices of the score list ordered by non-decreasing
value.  Nothing here constrains the order of equal scores. -/
lemma topk_of_sorted_perm (s : List ℚ) (chunks : List Chunk) (k : Nat) (a : List Nat)
    (hperm : a.Perm (List.range s.length))
    (hsort : List.Pairwise (fun i j => valAt s i ≤ valAt s j) a)
    (hlen : s.length = chunks.length) (hk1 : 1 ≤ k) (hk2 : k ≤ chunks.length) :
    ((pyTailSlice k a).reverse).length = k
      ∧ ((pyTailSlice k a).reverse).Nodup
      ∧ (∀ i ∈ (pyTailSlice k a).reverse, i < chunks.length
          ∧ chunks.getD i default ∈ chunks)
      ∧ List.Pairwise (fun i j => valAt s j ≤ valAt s i) ((pyTailSlice k a).reverse)
      ∧ (∀ i ∈ (pyTailSlice k a).reverse, ∀ j, j < chunks.length →
          j ∉ (pyTailSlice k a).reverse → valAt s j ≤ valAt s i) := by
  have hA : a.length = s.length := by
    rw [hperm.length_eq, List.length_range]
  have hts : pyTailSlice k a = a.drop (a.length - k) := by
    unfold pyTailSlice
    rw [if_neg (by omega)]
  have hmem_iff : ∀ i, i ∈ a ↔ i < s.length := by
    intro i
    rw [hperm.mem_iff, List.mem_range]
  rw [hts]
  refine ⟨?_, ?_, ?_, ?_, ?_⟩
  · rw [List.length_reverse, List.length_drop]
    omega
  · rw [List.nodup_reverse]
    exact List.Nodup.sublist (List.drop_sublist _ _)
      (hperm.nodup_iff.mpr (List.nodup_range _))
  · intro i hi
    rw [List.mem_reverse] at hi
    have hilt : i < chunks.length := by
      rw [← hlen]
      exact (hmem_iff i).mp (List.mem_of_mem_drop hi)
    refine ⟨hilt, ?_⟩
    rw [List.getD_eq_getElem chunks default hilt]
    exact List.getElem_mem hilt
  · rw [List.pairwise_reverse]
    exact List.Pairwise.sublist (List.drop_sublist _ _) hsort
  · intro i hi j hjlt hjn
    rw [List.mem_reverse] at hi
    have hjmem : j ∈ a := (hmem_iff j).mpr (by rw [hlen]; exact hjlt)
    have hjnd : j ∉ a.drop (a.length - k) := fun hcd => hjn (List.mem_reverse.mpr hcd)
    have hsplit := List.take_append_drop (a.length - k) a
    have hs2 := hsort
    rw [← hsplit] at hs2 hjmem
    obtain ⟨hst, hsd, hcross⟩ := List.pairwise_append.mp hs2
    rcases List.mem_append.mp hjmem with hjt | hjd
    · exact hcross j hjt i hi
    · exact absurd hjd hjnd

/-- C7 (amended): for `1 ≤ k ≤ len(chunks)` the ranker returns exactly
`k` chunks, drawn from `k` distinct input positions, each a member of
the input, ordered by non-increasing score, and every returned
position scores at least as high as every position left out.  Every
conclusion follows (via `topk_of_sorted_perm`) from the only
properties numpy documents for `argsort` — an ascending permutation of
the indices — so none of them depends on how equal scores are ordered.
The original claim's stable tie-breaking is false: the counterexample
returns an equal-score pair in reversed input order, and for longer
score arrays numpy leaves the order of equal scores unspecified. -/
theorem C7_topk_sorted (score : ScoreFn) (q : String) (chunks : List Chunk) (k : Nat)
    (s : List ℚ)
    (hs : s = score ((chunks.map Chunk.text).map pySplit) (pySplit q))
    (hlen : s.length = chunks.length) (hk1 : 1 ≤ k) (hk2 : k ≤ chunks.length) :
    ∃ idxs : List Nat,
      bm25_retrieve_top_k_chunks score q chunks k
          = .ok (idxs.map (fun i => chunks.getD i default))
        ∧ idxs.length = k
        ∧ idxs.Nodup
        ∧ (∀ i ∈ idxs, i < chunks.length ∧ chunks.getD i default ∈ chunks)
        ∧ List.Pairwise (fun i j => valAt s j ≤ valAt s i) idxs
        ∧ (∀ i ∈ idxs, ∀ j, j < chunks.length → j ∉ idxs → valAt s j ≤ valAt s i) := by
  have hchne : chunks ≠ [] := by
    intro hnil
    subst hnil
    simp at hk2
    omega
  have hsort : List.Pairwise (fun i j => valAt s i ≤ valAt s j) (argsort s) := by
    refine (argsort_sorted s).imp ?_
    rintro a b (hlt | ⟨heq, hle2⟩)
    · exact le_of_lt hlt
    · exact le_of_eq heq
  obtain ⟨h1, h2, h3, h4, h5⟩ :=
    topk_of_sorted_perm s chunks k (argsort s) (argsort_perm s) hsort hlen hk1 hk2
  refine ⟨(pyTailSlice k (argsort s)).reverse, ?_, h1, h2, h3, h4, h5⟩
  rw [bm25_eq_of_ne_nil score q chunks k hchne, ← hs]

theorem C7_witness :
    (1 : Nat) ≤ 2 ∧ (2 : Nat) ≤ ([⟨"x", 0⟩, ⟨"y", 1⟩, ⟨"z", 2⟩] : List Chunk).length
      ∧ ∃ idxs : List Nat,
        bm25_retrieve_top_k_chunks (fun _ _ => [1, 3, 2]) "r" [⟨"x", 0⟩, ⟨"y", 1⟩, ⟨"z", 2⟩] 2
            = .ok (idxs.map
                (fun i => ([⟨"x", 0⟩, ⟨"y", 1⟩, ⟨"z", 2⟩] : List Chunk).getD i default))
          ∧ idxs.length = 2
          ∧ idxs.Nodup
          ∧ (∀ i ∈ idxs, i < ([⟨"x", 0⟩, ⟨"y", 1⟩, ⟨"z", 2⟩] : List Chunk).length
              ∧ ([⟨"x", 0⟩, ⟨"y", 1⟩, ⟨"z", 2⟩] : List Chunk).getD i default
                ∈ [⟨"x", 0⟩, ⟨"y", 1⟩, ⟨"z", 2⟩])
          ∧ List.Pairwise (fun i j => valAt [1, 3, 2] j ≤ valAt [1, 3, 2] i) idxs
          ∧ (∀ i ∈ idxs, ∀ j, j < ([⟨"x", 0⟩, ⟨"y", 1⟩, ⟨"z", 2⟩] : List Chunk).length →
              j ∉ idxs → valAt [1, 3, 2] j ≤ valAt [1, 3, 2] i) :=
  ⟨by decide, by decide,
    C7_topk_sorted (fun _ _ => [1, 3, 2]) "r" [⟨"x", 0⟩, ⟨"y", 1⟩, ⟨"z", 2⟩] 2 [1, 3, 2]
      rfl rfl (by decide) (by decide)⟩

/-! ## Claims about the orchestrator -/

/-- C1: counterexample. A remote call that raises is *not* caught:
with a client whose first chat call raises, `run_multi_agent`
propagates the exception and returns no value at all. -/
theorem C1_counterexample :
    run_multi_agent 1 scriptRaise "ctx" = (.exc, 1)
      ∧ pyReturn (run_multi_agent 1 scriptRaise "ctx").1 = none :=
  ⟨rfl, rfl⟩

/-- C1 (amended): JSON parse failures inside a round are caught and
converted into that round's terminal error return, and whenever no
remote call raises and every parsed response is a JSON object,
`run_multi_agent` returns a value without raising; but an exception
raised by a remote call itself propagates to the caller (see the
counterexample). -/
theorem C1_parse_errors_contained (maxRounds : Nat) (events : Nat → Event)
    (context : String) (h : ∀ i, EventBenign (events i)) :
    (run_multi_agent maxRounds events context).1 ≠ .exc
      ∧ ∃ v, pyReturn (run_multi_agent maxRounds events context).1 = some v := by
  have main : ∀ rl st, (minionsLoop events rl st).1 ≠ RResult.exc := by
    intro rl
    induction rl with
    | zero =>
      intro st
      simp [minionsLoop]
    | succ rl ih =>
      intro st
      rw [minionsLoop]
      rcases h3 : stepRound events st with st2 | r
      · simp only [h3]
        exact ih st2
      · rcases r with ⟨res, rc⟩
        simp only [h3]
        exact stepRound_ne_exc events st res rc (h st.idx) (h (st.idx + 1)) h3
  refine ⟨main maxRounds ⟨0, 0, .str context⟩, ?_⟩
  rcases hr : (run_multi_agent maxRounds events context).1 with _ | m | _ | _ | _ | _ | _ | rf | _
  · exact absurd hr (main maxRounds ⟨0, 0, .str context⟩)
  all_goals exact ⟨_, rfl⟩

theorem C1_witness :
    (∀ i, EventBenign (scriptSimple i))
      ∧ (run_multi_agent 4 scriptSimple "doc").1 ≠ .exc
      ∧ ∃ v, pyReturn (run_multi_agent 4 scriptSimple "doc").1 = some v := by
  have hb : ∀ i, EventBenign (scriptSimple i) := by
    intro i
    unfold EventBenign
    refine ⟨?_, ?_⟩
    · unfold scriptSimple
      split_ifs <;> exact fun hh => nomatch hh
    · intro j hj
      unfold scriptSimple at hj
      split_ifs at hj <;> (injection hj with hj; exact ⟨_, hj.symm⟩)
  obtain ⟨h1, h2⟩ := C1_parse_errors_contained 4 scriptSimple "doc" hb
  exact ⟨hb, h1, h2⟩

/-- C2: a run of `run_multi_agent` terminates with a non-null final
answer through the aggregator return if and only if, at some round
within the budget, the orchestrator routed to the AggregatorAgent and
the aggregator's response parsed to an object with a non-null
`final_answer` field; no other code path produces such an outcome. -/
theorem C2_success_iff_agg_nonnull (maxRounds : Nat) (events : Nat → Event)
    (context : String) :
    (∃ rf rc v, run_multi_agent maxRounds events context = (.aggAnswer rf, rc)
        ∧ rf.lookup "final_answer" = some v ∧ v ≠ .null)
    ↔ (∃ k, k < maxRounds ∧ ∃ st, statesUpTo events ⟨0, 0, .str context⟩ k = some st
        ∧ AggRoundNonNull events st) := by
  constructor
  · rintro ⟨rf, rc, v, hrun, hfa, hnn⟩
    obtain ⟨k, hk, st, hst, hstep⟩ :=
      minionsLoop_aggAnswer events maxRounds ⟨0, 0, .str context⟩ rf rc hrun
    obtain ⟨fields, h1, h2, h3, h4⟩ := stepRound_eq_aggAnswer events st rf rc hstep
    exact ⟨k, hk, st, hst, fields, rf, v, h1, h2, h3, hfa, hnn⟩
  · rintro ⟨k, hk, st, hst, hagg⟩
    obtain ⟨rf, v, hstep, hfa, hnn⟩ := aggRoundNonNull_step events st hagg
    refine ⟨rf, st.roundCount + 1, v, ?_, hfa, hnn⟩
    unfold run_multi_agent
    obtain ⟨m, hm2⟩ : ∃ m, maxRounds - k = m + 1 := ⟨maxRounds - k - 1, by omega⟩
    have hm : maxRounds = k + (m + 1) := by omega
    rw [hm, minionsLoop_shift events k ⟨0, 0, .str context⟩ st hst (m + 1), minionsLoop]
    simp only [hstep]

theorem C2_witness :
    ∃ rf rc v, run_multi_agent 3 scriptAggAnswer "doc" = (.aggAnswer rf, rc)
      ∧ rf.lookup "final_answer" = some v ∧ v ≠ .null := by
  refine (C2_success_iff_agg_nonnull 3 scriptAggAnswer "doc").mpr ?_
  refine ⟨0, by omega, ⟨0, 0, .str "doc"⟩, rfl, ?_⟩
  exact ⟨[("agent", .str "AggregatorAgent")], [("final_answer", .str "42")], .str "42",
    rfl, rfl, rfl, rfl, fun hh => nomatch hh⟩

/-- C3: counterexample. A round that selects the AggregatorAgent whose
response parses but carries *no* `final_answer` field still terminates
the run at that round (returning the aggregator's default error
string), so a two-round budget stops after one round without the
max-rounds sentinel, even though no round produced a non-null final
answer, no parse error occurred and no unknown agent was selected. -/
theorem C3_counterexample :
    run_multi_agent 2 scriptAggEmpty "doc" = (.aggAnswer [], 1)
      ∧ (([] : List (String × Json)).lookup "final_answer" = none)
      ∧ (1 : Nat) ≠ 2
      ∧ RResult.aggAnswer [] ≠ RResult.maxRoundsExceeded :=
  ⟨rfl, rfl, by decide, fun hh => nomatch hh⟩

/-- C3 (amended): if every round within the budget routes to one of the
three non-aggregator agents with responses that parse as required (so
no round terminates early — in particular the AggregatorAgent is never
selected), the run executes exactly `N` rounds and returns the
exceeded-rounds sentinel with `round_count = N`. -/
theorem C3_exact_rounds (N : Nat) (events : Nat → Event) (context : String)
    (h : ∀ k, k < N → ∃ st, statesUpTo events ⟨0, 0, .str context⟩ k = some st
        ∧ NonTermRound events st) :
    run_multi_agent N events context = (.maxRoundsExceeded, N) := by
  have main : ∀ j, j ≤ N → ∃ st, statesUpTo events ⟨0, 0, .str context⟩ j = some st
      ∧ st.roundCount = j := by
    intro j
    induction j with
    | zero =>
      intro hj
      exact ⟨⟨0, 0, .str context⟩, rfl, rfl⟩
    | succ j ih =>
      intro hj
      obtain ⟨st, hst, hrc⟩ := ih (by omega)
      obtain ⟨st2, hst2, hnt2⟩ := h j (by omega)
      rw [hst] at hst2
      injection hst2 with hst2
      subst hst2
      obtain ⟨ctx2, hstep⟩ := nonTermRound_step events st hnt2
      refine ⟨⟨st.idx + 2, st.roundCount + 1, ctx2⟩, ?_, by simp [hrc]⟩
      rw [statesUpTo]
      simp only [hst, hstep]
  obtain ⟨stN, hstN, hrcN⟩ := main N le_rfl
  unfold run_multi_agent
  have hshift := minionsLoop_shift events N ⟨0, 0, .str context⟩ stN hstN 0
  rw [Nat.add_zero] at hshift
  rw [hshift, minionsLoop, hrcN]

theorem C3_witness :
    run_multi_agent 1 scriptSimple "doc" = (.maxRoundsExceeded, 1) := by
  refine C3_exact_rounds 1 scriptSimple "doc" ?_
  intro k hk
  have hk0 : k = 0 := by omega
  subst hk0
  refine ⟨⟨0, 0, .str "doc"⟩, rfl, ?_⟩
  exact ⟨[("agent", .str "SimpleFinanceAgent")], "SimpleFinanceAgent", rfl, rfl,
    Or.inr (Or.inl ⟨rfl, .obj [], rfl⟩)⟩

/-- C10: in a round where the orchestrator routes to the
RetrieverAgent, if the agent's response parses to a JSON object then
the rest of the run proceeds from the context replaced by its
`relevant_text` value (the empty string when the field is absent) —
the previous context does not appear on the right-hand side, so it is
never consulted again within the run; if the response parses to a
non-object JSON value, the run terminates in that round with the
retriever error, so no later round exists. -/
theorem C10_context_replaced (events : Nat → Event) (rl i rc : Nat) (ctx : Json)
    (fields : List (String × Json)) (r : Json)
    (h1 : events i = .parsed (.obj fields))
    (h2 : (fields.lookup "agent").getD (.str "") = .str "RetrieverAgent")
    (h3 : events (i + 1) = .parsed r) :
    (∀ rf, r = .obj rf →
      minionsLoop events (rl + 1) ⟨i, rc, ctx⟩
        = minionsLoop events rl ⟨i + 2, rc + 1, (rf.lookup "relevant_text").getD (.str "")⟩)
    ∧ ((∀ rf, r ≠ .obj rf) →
      minionsLoop events (rl + 1) ⟨i, rc, ctx⟩ = (.retrieverParseErr, rc + 1)) := by
  have hstep := stepRound_retriever events ⟨i, rc, ctx⟩ fields h1 h2
  constructor
  · rintro rf rfl
    rw [minionsLoop]
    simp only [hstep, h3, handleRetriever]
  · intro hne
    cases r with
    | obj rf => exact absurd rfl (hne rf)
    | null =>
      rw [minionsLoop]
      simp only [hstep, h3, handleRetriever]
    | bool b =>
      rw [minionsLoop]
      simp only [hstep, h3, handleRetriever]
    | num q =>
      rw [minionsLoop]
      simp only [hstep, h3, handleRetriever]
    | str s =>
      rw [minionsLoop]
      simp only [hstep, h3, handleRetriever]
    | arr el =>
      rw [minionsLoop]
      simp only [hstep, h3, handleRetriever]

theorem C10_witness :
    minionsLoop scriptRetrieve 1 ⟨0, 0, .str "orig"⟩
      = minionsLoop scriptRetrieve 0 ⟨2, 1, .str "narrowed"⟩ :=
  (C10_context_replaced scriptRetrieve 0 0 0 (.str "orig")
      [("agent", .str "RetrieverAgent")] (.obj [("relevant_text", .str "narrowed")])
      rfl rfl rfl).1 [("relevant_text", .str "narrowed")] rfl
